import Mathlib

/-!
Shallow embedding of the `@sopeasy/web` analytics client.

The repository contains two variants of the tracking module:
  * `src/src/index.ts` (current variant, segment-based URL masking) —
    embedded in namespace `Peasy.Web`;
  * `src/unnamed/part_002` (legacy variant, regex-based masking, skip
    patterns and a do-not-track flag) — embedded in namespace `Peasy.Legacy`.

JavaScript strings are modelled as `List Char`, so that every string
operation used by the source (`split`, `join`, `endsWith`, `slice(0,-1)`,
`includes`, concatenation) is a structurally recursive Lean function that
the kernel can evaluate on concrete inputs.  Browser URLs are modelled as
parsed records (`origin`/`pathname`/`search`); `new URL(...)` /
`URL#toString` round-tripping is treated as the identity on that record.
-/

namespace Peasy

/-- JavaScript `s.split(sep)` for a single-character separator: splits on
every occurrence, keeping empty pieces; `"".split(sep)` is `[""]`. -/
def jsSplit (sep : Char) : List Char → List (List Char)
  | [] => [[]]
  | c :: cs =>
    match jsSplit sep cs with
    | [] => [[]]
    | s :: rest => if c = sep then [] :: s :: rest else (c :: s) :: rest

/-- JavaScript `parts.join(sep)` for a single-character separator. -/
def jsJoin (sep : Char) : List (List Char) → List Char
  | [] => []
  | [s] => s
  | s :: rest => s ++ sep :: jsJoin sep rest

/-- JavaScript `s.endsWith(c)` for a single character. -/
def jsEndsWith (l : List Char) (c : Char) : Bool :=
  decide (l.getLast? = some c)

/-- Whether `needle` occurs at the start of `hay`. -/
def leadingMatch : List Char → List Char → Bool
  | _, [] => true
  | [], _ :: _ => false
  | h :: hs, n :: ns => h = n && leadingMatch hs ns

/-- JavaScript `hay.includes(needle)`: substring containment. -/
def jsIncludes : List Char → List Char → Bool
  | [], needle => leadingMatch [] needle
  | h :: t, needle => leadingMatch (h :: t) needle || jsIncludes t needle

/-- A browser URL, already parsed into the components the client touches.
`origin` is scheme+host(+port); `search` includes the leading `?` when
non-empty. -/
structure Url where
  origin : List Char
  pathname : List Char
  search : List Char
deriving DecidableEq

/-- `URL#toString` / `URL#href` on the parsed record. -/
def render (u : Url) : List Char := u.origin ++ u.pathname ++ u.search

/-- A JavaScript `Primitive` metadata value (`string | number | boolean |
null | undefined`). -/
inductive Prim
  | str (s : List Char)
  | num (n : Int)
  | bool (b : Bool)
  | null
  | undef
deriving DecidableEq

/-- A metadata record `Record<string, Primitive>`. -/
def Md : Type := List (List Char × Prim)

instance : DecidableEq Md := by
  unfold Md; infer_instance

/-- `_getReferrer` (identical in both variants): the document referrer,
blanked when it *contains* the current hostname as a substring. -/
def getReferrer (referrer hostname : List Char) : List Char :=
  if jsIncludes referrer hostname then [] else referrer

/-- Default ingest endpoint (both variants). -/
def defaultIngest : List Char := "https://api.peasy.so/v1/ingest/".data

end Peasy

namespace Peasy.Web

/-- `normalizePath` inside `_maskPathname` (src/src/index.ts:194): strip one
trailing `/` then split on `/`. -/
def normalizePath (path : List Char) : List (List Char) :=
  if jsEndsWith path '/' then jsSplit '/' path.dropLast else jsSplit '/' path

/-- The segment loop of `_maskPathname` (src/src/index.ts:206-218).
`none` models the early `return pathname` (rejection); `some segs` the
accumulated `maskedSegments`.  A `'*'` mask segment with the path
exhausted models the `break`. -/
def maskSegs : List (List Char) → List (List Char) → Option (List (List Char))
  | [], _ => some []
  | m :: _, [] => if m = ['*'] then some [] else none
  | m :: ms, p :: ps =>
    if m = ['*'] then (maskSegs ms ps).map (['*'] :: ·)
    else if m = p then (maskSegs ms ps).map (p :: ·)
    else none

/-- `_maskPathname` (src/src/index.ts:193-220). -/
def maskPathname (mask path : List Char) : List Char :=
  let ms := normalizePath mask
  let ps := normalizePath path
  if ps.length > ms.length then path
  else
    match maskSegs ms ps with
    | none => path
    | some segs => jsJoin '/' segs

/-- The masking loop of `_processUrl` (src/src/index.ts:224-231): the first
pattern whose masked form differs from the pathname replaces it and the
loop breaks; patterns whose masked form equals the pathname fall through. -/
def maskLoop : List (List Char) → List Char → List Char
  | [], path => path
  | p :: ps, path =>
    if maskPathname p path ≠ path then maskPathname p path else maskLoop ps path

/-- `Config` of the current variant, with the module-level defaults as the
initial value (src/src/index.ts:62-69). -/
structure Config where
  websiteId : List Char
  ingestUrl : List Char
  maskPatterns : List (List Char)
  autoPageView : Bool
  ignoreQueryParams : Bool
  setLocalVisitorId : Bool
deriving DecidableEq

/-- `_processUrl` (src/src/index.ts:222-237) on the parsed URL. -/
def processUrl (cfg : Config) (u : Url) : Url :=
  let u1 : Url := { u with pathname := maskLoop cfg.maskPatterns u.pathname }
  if cfg.ignoreQueryParams then { u1 with search := [] } else u1

/-- `init`'s ingest-URL computation (src/src/index.ts:93-96): `||`-default
(empty string is falsy) then append `/` when missing. -/
def normIngest (o : Option (List Char)) : List Char :=
  let base := match o with
    | none => defaultIngest
    | some s => if s = [] then defaultIngest else s
  if jsEndsWith base '/' then base else base ++ ['/']

/-- The spec-side matching predicate of claim C1: segments match
pairwise, a literal segment by equality and `*` by any single non-empty
segment. -/
def segMatchSpec : List (List Char) → List (List Char) → Bool
  | [], [] => true
  | m :: ms, p :: ps =>
    (if m = ['*'] then !p.isEmpty else if m = p then true else false)
      && segMatchSpec ms ps
  | _, _ => false

end Peasy.Web

namespace Peasy.Web

/-- `init` parameters (src/src/index.ts:10-60); `none` models an omitted
optional field. -/
structure InitParams where
  websiteId : List Char
  ingestUrl : Option (List Char)
  maskPatterns : Option (List (List Char))
  autoPageView : Option Bool
  ignoreQueryParams : Option Bool
deriving DecidableEq

/-- The configuration written by `init` (src/src/index.ts:93-100).
`setLocalVisitorId` is not touched by `init` and keeps its previous
(default) value. -/
def mkConfig (params : InitParams) (prev : Config) : Config :=
  { websiteId := params.websiteId
    ingestUrl := normIngest params.ingestUrl
    maskPatterns := params.maskPatterns.getD []
    autoPageView := params.autoPageView.getD true
    ignoreQueryParams := params.ignoreQueryParams.getD false
    setLocalVisitorId := prev.setLocalVisitorId }

/-- Ambient browser context read by the pipeline: current location,
hostname, document referrer, locale, screen size and document title. -/
structure Ctx where
  url : Url
  hostname : List Char
  referrer : List Char
  lang : List Char
  screenStr : List Char
  title : List Char
deriving DecidableEq

/-- An event payload (src/src/index.ts:135-144). -/
structure Payload where
  name : List Char
  websiteId : List Char
  pageUrl : List Char
  hostName : List Char
  referrer : List Char
  lang : List Char
  screen : List Char
  metadata : Md
deriving DecidableEq

/-- One `_send` invocation observed at the transport boundary: an event
(`'e'`) or a profile (`'p'`) submission. -/
inductive Sent
  | event (p : Payload)
  | profile (websiteId hostName id : List Char) (pf : Md)
deriving DecidableEq

/-- A pre-init queue entry (src/src/index.ts:71-82). -/
inductive QItem
  | track (name : List Char) (md : Option Md)
  | setProfile (id : List Char) (pf : Md)
deriving DecidableEq

/-- Module state: `initialized`, `config`, `preInitQueue`, `lastPage`
(src/src/index.ts:62-83), plus `sent`, the trace of `_send` invocations. -/
structure StM where
  initialized : Bool
  config : Config
  queue : List QItem
  lastPage : Option (List Char)
  sent : List Sent
deriving DecidableEq

/-- The module-level default config (src/src/index.ts:62-69). -/
def cfg0 : Config :=
  { websiteId := [], ingestUrl := [], maskPatterns := []
    autoPageView := true, ignoreQueryParams := false, setLocalVisitorId := true }

/-- Fresh module state before any call. -/
def st0 : StM :=
  { initialized := false, config := cfg0, queue := [], lastPage := none, sent := [] }

/-- The event payload `track` assembles (src/src/index.ts:135-144). -/
def mkPayload (cfg : Config) (ctx : Ctx) (name : List Char) (md : Option Md) : Payload :=
  { name := name
    websiteId := cfg.websiteId
    pageUrl := render (processUrl cfg ctx.url)
    hostName := ctx.hostname
    referrer := getReferrer ctx.referrer ctx.hostname
    lang := ctx.lang
    screen := ctx.screenStr
    metadata := md.getD [] }

/-- `track` (src/src/index.ts:130-146): buffer when uninitialized,
otherwise build the payload and `_send`. -/
def trackOp (ctx : Ctx) (name : List Char) (md : Option Md) (s : StM) : StM :=
  if s.initialized then
    { s with sent := s.sent ++ [Sent.event (mkPayload s.config ctx name md)] }
  else
    { s with queue := s.queue ++ [QItem.track name md] }

/-- `setProfile` (src/src/index.ts:160-179). -/
def setProfileOp (ctx : Ctx) (id : List Char) (pf : Md) (s : StM) : StM :=
  if s.initialized then
    { s with sent := s.sent ++ [Sent.profile s.config.websiteId ctx.hostname id pf] }
  else
    { s with queue := s.queue ++ [QItem.setProfile id pf] }

def pageViewName : List Char := "$page_view".data

def pageTitleKey : List Char := "page_title".data

/-- The metadata `page` passes to `track` (src/src/index.ts:188-190). -/
def pageMd (ctx : Ctx) : Option Md := some [(pageTitleKey, Prim.str ctx.title)]

/-- `page` (src/src/index.ts:184-191): no-op when the pathname equals
`lastPage`, otherwise update the marker first, then track. -/
def pageOp (ctx : Ctx) (s : StM) : StM :=
  if s.lastPage = some ctx.url.pathname then s
  else trackOp ctx pageViewName (pageMd ctx) { s with lastPage := some ctx.url.pathname }

/-- Dispatch of one drained queue entry (src/src/index.ts:109-118). -/
def dispatchItem (ctx : Ctx) (it : QItem) (s : StM) : StM :=
  match it with
  | QItem.track n md => trackOp ctx n md s
  | QItem.setProfile id pf => setProfileOp ctx id pf s

/-- The drain loop of `init` (src/src/index.ts:109-118). -/
def drainQueue (ctx : Ctx) (items : List QItem) (s : StM) : StM :=
  items.foldl (fun acc it => dispatchItem ctx it acc) s

/-- `init` (src/src/index.ts:90-119): idempotent-ignore when already
initialized; otherwise freeze the config, fire the initial page view when
`autoPageView` (the page-change listeners themselves are outside this
model), then drain the pre-init queue in order.  The queue array is not
cleared by the source; it is simply never read again. -/
def initOp (params : InitParams) (ctx : Ctx) (s : StM) : StM :=
  if s.initialized then s
  else
    drainQueue ctx s.queue
      (if (mkConfig params s.config).autoPageView then
        pageOp ctx { s with initialized := true, config := mkConfig params s.config }
      else
        { s with initialized := true, config := mkConfig params s.config })

/-- The `_send` a drained queue entry produces once initialized. -/
def sentOf (cfg : Config) (ctx : Ctx) : QItem → Sent
  | QItem.track n md => Sent.event (mkPayload cfg ctx n md)
  | QItem.setProfile id pf => Sent.profile cfg.websiteId ctx.hostname id pf

/-- The sends produced by `init`'s own `page()` call (before the drain). -/
def initAutoSends (cfg : Config) (ctx : Ctx) (lastPage : Option (List Char)) : List Sent :=
  if cfg.autoPageView then
    if lastPage = some ctx.url.pathname then []
    else [Sent.event (mkPayload cfg ctx pageViewName (pageMd ctx))]
  else []

/-- A public call issued before `init` (claim C3's scenario). -/
inductive PreCall
  | track (name : List Char) (md : Option Md)
  | setProfile (id : List Char) (pf : Md)
  | page
deriving DecidableEq

def stepPre (ctx : Ctx) (s : StM) : PreCall → StM
  | PreCall.track n md => trackOp ctx n md s
  | PreCall.setProfile id pf => setProfileOp ctx id pf s
  | PreCall.page => pageOp ctx s

def applyPre (ctx : Ctx) (calls : List PreCall) (s : StM) : StM :=
  calls.foldl (stepPre ctx) s

/-- Any public call, including (repeated) `init`. -/
inductive Call
  | track (name : List Char) (md : Option Md)
  | setProfile (id : List Char) (pf : Md)
  | page
  | doInit (params : InitParams)
deriving DecidableEq

def stepCall (ctx : Ctx) (s : StM) : Call → StM
  | Call.track n md => trackOp ctx n md s
  | Call.setProfile id pf => setProfileOp ctx id pf s
  | Call.page => pageOp ctx s
  | Call.doInit params => initOp params ctx s

def applyCalls (ctx : Ctx) (calls : List Call) (s : StM) : StM :=
  calls.foldl (stepCall ctx) s

end Peasy.Web

namespace Peasy.Legacy

/-- `_normalizeUrl` (src/unnamed/part_002:198-203): strip one trailing `/`. -/
def normalizeUrl (url : List Char) : List Char :=
  if jsEndsWith url '/' then url.dropLast else url

/-- One token of the regex `init` compiles from a pattern
(src/unnamed/part_002:87): `*` becomes the class `[^/]+`, every other
character a literal.  (Faithful for patterns whose remaining characters
are regex-literal, which all the repository's examples are.) -/
inductive Tok
  | lit (c : Char)
  | wild
deriving DecidableEq

/-- Compile a (already trailing-slash-normalized) pattern into tokens:
every `*` character is replaced by the one-or-more-non-slash class,
everything else kept literal. -/
def compileMask (p : List Char) : List Tok :=
  p.map (fun c => if c = '*' then Tok.wild else Tok.lit c)

/-- Anchored matching of the compiled tokens against a whole string:
`lit c` consumes exactly `c`; `wild` (`[^/]+`) consumes one or more
non-`/` characters. -/
def toksMatch : List Tok → List Char → Bool
  | [], [] => true
  | [], _ :: _ => false
  | Tok.lit _ :: _, [] => false
  | Tok.wild :: _, [] => false
  | Tok.lit c :: ts, d :: ds => c = d && toksMatch ts ds
  | Tok.wild :: ts, d :: ds =>
    !(d = '/') && (toksMatch ts ds || toksMatch (Tok.wild :: ts) ds)

/-- The compiled-regex test of the legacy variant
(src/unnamed/part_002:85-92, 209, 214): anchor the normalized pattern at
both ends and test it against the whole pathname. -/
def regexTest (pat path : List Char) : Bool :=
  toksMatch (compileMask (normalizeUrl pat)) path

/-- Legacy config (src/unnamed/part_002:52-59); the compiled regexes are
kept as their source patterns and compiled at the use site, which is
observationally identical. -/
structure Config where
  websiteId : List Char
  maskPatterns : List (List Char)
  skipPatterns : List (List Char)
  autoPageView : Bool
  ingestUrl : List Char
deriving DecidableEq

/-- `config.ingestUrl = params.ingestUrl ?? default`
(src/unnamed/part_002:94) — note: no trailing-slash normalization. -/
def initIngestUrl (o : Option (List Char)) : List Char :=
  o.getD defaultIngest

/-- The mask scan of `_processUrl` (src/unnamed/part_002:213-217): the
first pattern whose regex matches wins, and the *pattern string itself*
is returned. -/
def firstMaskMatch : List (List Char) → List Char → Option (List Char)
  | [], _ => none
  | p :: ps, path => if regexTest p path then some p else firstMaskMatch ps path

/-- `_processUrl` (src/unnamed/part_002:205-222): `none` when a skip
pattern matches the raw pathname; otherwise the first matching mask
pattern, or the URL itself. -/
def processUrl (cfg : Config) (u : Url) : Option (List Char) :=
  if cfg.skipPatterns.any (fun r => regexTest r u.pathname) then none
  else
    match firstMaskMatch cfg.maskPatterns u.pathname with
    | some p => some p
    | none => some (render u)

/-- Ambient context of the legacy variant; `doNotTrack` models
`localStorage['peasy-do-not-track'] === 'true'`. -/
structure Ctx where
  url : Url
  hostname : List Char
  referrer : List Char
  lang : List Char
  screenStr : List Char
  title : List Char
  doNotTrack : Bool
deriving DecidableEq

/-- An event payload (src/unnamed/part_002:137-146). -/
structure Payload where
  name : List Char
  websiteId : List Char
  pageUrl : List Char
  hostName : List Char
  referrer : List Char
  lang : List Char
  screen : List Char
  metadata : Md
deriving DecidableEq

inductive Sent
  | event (p : Payload)
  | profile (websiteId hostName id : List Char) (pf : Md)
deriving DecidableEq

inductive QItem
  | track (name : List Char) (md : Option Md)
  | setProfile (id : List Char) (pf : Md)
deriving DecidableEq

/-- Legacy module state (src/unnamed/part_002:52-73) plus the `_send`
trace. -/
structure St where
  initialized : Bool
  queue : List QItem
  lastPage : Option (List Char)
  sent : List Sent
deriving DecidableEq

def mkPayload (cfg : Config) (ctx : Ctx) (name : List Char) (md : Option Md)
    (pageUrl : List Char) : Payload :=
  { name := name
    websiteId := cfg.websiteId
    pageUrl := pageUrl
    hostName := ctx.hostname
    referrer := getReferrer ctx.referrer ctx.hostname
    lang := ctx.lang
    screen := ctx.screenStr
    metadata := md.getD [] }

/-- `track` (src/unnamed/part_002:124-149): do-not-track short-circuit,
pre-init buffering, then sanitize — aborting silently on `null` — and
`_send`. -/
def trackOp (cfg : Config) (ctx : Ctx) (name : List Char) (md : Option Md)
    (s : St) : St :=
  if ctx.doNotTrack then s
  else if s.initialized then
    match processUrl cfg ctx.url with
    | none => s
    | some pageUrl =>
      { s with sent := s.sent ++ [Sent.event (mkPayload cfg ctx name md pageUrl)] }
  else { s with queue := s.queue ++ [QItem.track name md] }

def pageViewName : List Char := "$page_view".data

def pageMd (ctx : Ctx) : Option Md :=
  some [("page_title".data, Prim.str ctx.title)]

/-- `page` (src/unnamed/part_002:189-196): no-op when the pathname equals
`lastPage`; otherwise the marker is updated *before* `track` runs. -/
def pageOp (cfg : Config) (ctx : Ctx) (s : St) : St :=
  if s.lastPage = some ctx.url.pathname then s
  else trackOp cfg ctx pageViewName (pageMd ctx) { s with lastPage := some ctx.url.pathname }

end Peasy.Legacy

namespace Peasy.Web

/-- The failure oracles of one `_send` call (src/src/index.ts:238-259):
which of its synchronous steps throw (`new URL`, `localStorage.getItem`,
`JSON.stringify`, the `fetch` call itself), whether the returned promise
resolves (`netOk`), the `X-Visitor-ID` response header, whether
`localStorage.setItem` in the continuation throws, and the token stored
before the call. -/
structure SendEnv where
  urlJoinOk : Bool
  storageGetOk : Bool
  serializeOk : Bool
  fetchCallOk : Bool
  netOk : Bool
  respToken : Option (List Char)
  storageSetOk : Bool
  storedToken : Option (List Char)
deriving DecidableEq

/-- A synchronous exception inside `_send`'s `try` block. -/
inductive SendErr
  | badUrl
  | storageDenied
  | serializeFail
  | fetchThrew
deriving DecidableEq

/-- The observable outcome of one `_send` call: whether the request was
issued, whether the `catch` block logged, whether an unhandled promise
rejection was left behind (the promise chain has no rejection handler),
and the stored token afterwards. -/
structure SendEffect where
  requestIssued : Bool
  loggedError : Bool
  unhandledRejection : Bool
  storedAfter : Option (List Char)
deriving DecidableEq

/-- The body of `_send`'s `try` block (src/src/index.ts:239-255), with the
asynchronous continuation folded into the returned effect.  A rejected
fetch promise, or a throwing `setItem` inside `.then`, has no handler:
it becomes an unhandled rejection, not an exception of the caller. -/
def sendTry (setLocal : Bool) (env : SendEnv) : Except SendErr SendEffect :=
  if env.urlJoinOk = false then Except.error SendErr.badUrl
  else if env.storageGetOk = false then Except.error SendErr.storageDenied
  else if env.serializeOk = false then Except.error SendErr.serializeFail
  else if env.fetchCallOk = false then Except.error SendErr.fetchThrew
  else Except.ok <|
    if env.netOk = false then
      { requestIssued := true, loggedError := false
        unhandledRejection := true, storedAfter := env.storedToken }
    else
      match env.respToken with
      | some t =>
        if setLocal then
          if env.storageSetOk then
            { requestIssued := true, loggedError := false
              unhandledRejection := false, storedAfter := some t }
          else
            { requestIssued := true, loggedError := false
              unhandledRejection := true, storedAfter := env.storedToken }
        else
          { requestIssued := true, loggedError := false
            unhandledRejection := false, storedAfter := env.storedToken }
      | none =>
        { requestIssued := true, loggedError := false
          unhandledRejection := false, storedAfter := env.storedToken }

/-- `_send` with its `catch` (src/src/index.ts:256-258): a synchronous
exception is logged and swallowed. -/
def sendRun (setLocal : Bool) (env : SendEnv) : SendEffect :=
  match sendTry setLocal env with
  | Except.ok eff => eff
  | Except.error _ =>
    { requestIssued := false, loggedError := true
      unhandledRejection := false, storedAfter := env.storedToken }

/-- `track`/`setProfile`/`page` seen with exception semantics: payload
assembly is pure, so `_send` is the only step that can throw, and its
`try`/`catch` confines the exception.  `Except.error` would model an
exception reaching the caller. -/
def trackSendExc (setLocal : Bool) (env : SendEnv) : Except SendErr SendEffect :=
  match sendTry setLocal env with
  | Except.ok eff => Except.ok eff
  | Except.error _ =>
    Except.ok
      { requestIssued := false, loggedError := true
        unhandledRejection := false, storedAfter := env.storedToken }

end Peasy.Web

namespace Peasy.Web

/-- Mask configuration of the C1 example. -/
def c1cfg : Config := { cfg0 with maskPatterns := ["/user/*".data] }

/-- Mask configuration of the C7 counterexample. -/
def c7cfg : Config := { cfg0 with maskPatterns := ["/a/*".data, "/*/*".data] }

/-- URL of the C7 counterexample. -/
def c7url : Url :=
  { origin := "https://app.example".data, pathname := "/a/b".data, search := [] }

/-- A transport environment in which every synchronous step succeeds and
the network request fails (the fetch promise rejects). -/
def c2envNetFail : SendEnv :=
  { urlJoinOk := true, storageGetOk := true, serializeOk := true
    fetchCallOk := true, netOk := false, respToken := none
    storageSetOk := true, storedToken := none }

/-- A concrete browser context for witnesses. -/
def exCtx : Ctx :=
  { url := { origin := "https://shop.example".data, pathname := "/cart".data, search := [] }
    hostname := "shop.example".data, referrer := [], lang := "en".data
    screenStr := "800x600".data, title := "Cart".data }

/-- A concrete initialized module state for witnesses. -/
def exStInit : StM :=
  { initialized := true, config := cfg0, queue := [], lastPage := none, sent := [] }

end Peasy.Web

namespace Peasy.Legacy

/-- Legacy configuration with one skip pattern, for the C5/C10 witnesses. -/
def c5cfg : Config :=
  { websiteId := "w".data, maskPatterns := [], skipPatterns := ["/admin/*".data]
    autoPageView := true, ingestUrl := Peasy.defaultIngest }

/-- Legacy context on a skipped path, for the C5/C10 witnesses. -/
def c5ctx : Ctx :=
  { url := { origin := "https://app.example".data, pathname := "/admin/users".data, search := [] }
    hostname := "app.example".data, referrer := [], lang := "en".data
    screenStr := "800x600".data, title := "Admin".data, doNotTrack := false }

/-- A concrete initialized legacy state, for the C5/C10 witnesses. -/
def c5st : St :=
  { initialized := true, queue := [], lastPage := none, sent := [] }

end Peasy.Legacy

namespace Peasy

/-- A referrer URL whose host component is exactly `host`, rendered as the
string `document.referrer` would hold. -/
def renderRef (scheme host path : List Char) : List Char :=
  scheme ++ "://".data ++ host ++ path

end Peasy

namespace Peasy

theorem jsSplit_ne_nil (sep : Char) (l : List Char) : jsSplit sep l ≠ [] := by
  cases l with
  | nil => simp [jsSplit]
  | cons c cs =>
    cases h : jsSplit sep cs with
    | nil => simp [jsSplit, h]
    | cons s rest => by_cases hc : c = sep <;> simp [jsSplit, h, hc]

theorem jsSplit_sepFree (sep : Char) (l : List Char) :
    ∀ s ∈ jsSplit sep l, sep ∉ s := by
  induction l with
  | nil =>
    intro s hs
    simp [jsSplit] at hs
    simp [hs]
  | cons c cs ih =>
    intro s hs
    cases h : jsSplit sep cs with
    | nil => exact absurd h (jsSplit_ne_nil sep cs)
    | cons t rest =>
      rw [h] at ih
      simp only [jsSplit, h] at hs
      by_cases hc : c = sep
      · simp only [if_pos hc] at hs
        rcases List.mem_cons.mp hs with h1 | h1
        · simp [h1]
        · exact ih s h1
      · simp only [if_neg hc] at hs
        rcases List.mem_cons.mp hs with h1 | h1
        · subst h1
          intro hmem
          rcases List.mem_cons.mp hmem with h2 | h2
          · exact hc h2.symm
          · exact ih t (List.mem_cons_self t rest) h2
        · exact ih s (List.mem_cons_of_mem t h1)

theorem jsJoin_jsSplit (sep : Char) (l : List Char) :
    jsJoin sep (jsSplit sep l) = l := by
  induction l with
  | nil => simp [jsSplit, jsJoin]
  | cons c cs ih =>
    cases h : jsSplit sep cs with
    | nil => exact absurd h (jsSplit_ne_nil sep cs)
    | cons t rest =>
      rw [h] at ih
      by_cases hc : c = sep
      · simp only [jsSplit, h, if_pos hc]
        cases rest with
        | nil => simp [jsJoin] at ih ⊢; simp [ih, hc]
        | cons u us => simp [jsJoin] at ih ⊢; simp [ih, hc]
      · simp only [jsSplit, h, if_neg hc]
        cases rest with
        | nil => simp [jsJoin] at ih ⊢; simp [ih]
        | cons u us => simp [jsJoin] at ih ⊢; simp [ih]

theorem jsSplit_single (sep : Char) (s : List Char) (h : sep ∉ s) :
    jsSplit sep s = [s] := by
  induction s with
  | nil => simp [jsSplit]
  | cons c cs ih =>
    have hc : ¬ c = sep := fun e => h (by simp [e])
    have h' : sep ∉ cs := fun m => h (List.mem_cons_of_mem _ m)
    simp [jsSplit, ih h', hc]

theorem jsSplit_append_cons (sep : Char) (s tail : List Char) (h : sep ∉ s) :
    jsSplit sep (s ++ sep :: tail) = s :: jsSplit sep tail := by
  induction s with
  | nil =>
    cases ht : jsSplit sep tail with
    | nil => exact absurd ht (jsSplit_ne_nil sep tail)
    | cons t rest => simp [jsSplit, ht]
  | cons c cs ih =>
    have hc : ¬ c = sep := fun e => h (by simp [e])
    have h' : sep ∉ cs := fun m => h (List.mem_cons_of_mem _ m)
    simp [jsSplit, ih h', hc]

theorem jsSplit_jsJoin (sep : Char) (L : List (List Char)) (hne : L ≠ [])
    (hf : ∀ s ∈ L, sep ∉ s) : jsSplit sep (jsJoin sep L) = L := by
  induction L with
  | nil => exact absurd rfl hne
  | cons s rest ih =>
    cases rest with
    | nil =>
      simp only [jsJoin]
      exact jsSplit_single sep s (hf s (by simp))
    | cons t us =>
      have h1 : jsJoin sep (s :: t :: us) = s ++ sep :: jsJoin sep (t :: us) := by
        simp [jsJoin]
      rw [h1, jsSplit_append_cons sep s _ (hf s (by simp))]
      rw [ih (by simp) (fun x hx => hf x (List.mem_cons_of_mem _ hx))]

theorem jsJoin_concat (sep : Char) (X : List (List Char)) (L : List Char)
    (h : X ≠ []) : jsJoin sep (X ++ [L]) = jsJoin sep X ++ sep :: L := by
  induction X with
  | nil => exact absurd rfl h
  | cons s rest ih =>
    cases rest with
    | nil => simp [jsJoin]
    | cons t us =>
      have h2 := ih (by simp)
      simp only [List.cons_append] at h2 ⊢
      simp [jsJoin, h2]

theorem getLastQ_mem (l : List Char) (a : Char) (h : l.getLast? = some a) :
    a ∈ l := by
  induction l with
  | nil => simp [List.getLast?] at h
  | cons c cs ih =>
    cases cs with
    | nil =>
      simp [List.getLast?] at h
      simp [h]
    | cons d ds =>
      rw [List.getLast?_cons_cons] at h
      exact List.mem_cons_of_mem c (ih h)

theorem jsEndsWith_concat (l : List Char) (c : Char) :
    jsEndsWith (l ++ [c]) c = true := by
  simp [jsEndsWith, List.getLast?_concat]

end Peasy

namespace Peasy.Web

theorem normalizePath_ne_nil (p : List Char) : normalizePath p ≠ [] := by
  unfold normalizePath
  split <;> exact jsSplit_ne_nil '/' _

theorem normalizePath_sepFree (p : List Char) :
    ∀ s ∈ normalizePath p, '/' ∉ s := by
  unfold normalizePath
  split <;> exact jsSplit_sepFree '/' _

theorem maskSegs_eq_take (ms : List (List Char)) :
    ∀ (ps r : List (List Char)), maskSegs ms ps = some r → r = ms.take ps.length := by
  induction ms with
  | nil =>
    intro ps r h
    simp only [maskSegs, Option.some.injEq] at h
    subst h
    simp
  | cons m ms ih =>
    intro ps r h
    cases ps with
    | nil =>
      simp only [maskSegs] at h
      by_cases hm : m = ['*']
      · rw [if_pos hm] at h
        simp only [Option.some.injEq] at h
        subst h
        simp
      · rw [if_neg hm] at h
        exact absurd h (by simp)
    | cons p ps =>
      simp only [maskSegs] at h
      by_cases hm : m = ['*']
      · simp only [if_pos hm, Option.map_eq_some'] at h
        obtain ⟨r', hr', hrr⟩ := h
        subst hrr
        simp [List.take_succ_cons, ih ps r' hr', hm]
      · by_cases hp : m = p
        · simp only [if_neg hm, if_pos hp, Option.map_eq_some'] at h
          obtain ⟨r', hr', hrr⟩ := h
          subst hrr
          simp [List.take_succ_cons, ih ps r' hr', hp]
        · simp [if_neg hm, if_neg hp] at h

theorem maskSegs_self (ms : List (List Char)) : maskSegs ms ms = some ms := by
  induction ms with
  | nil => simp [maskSegs]
  | cons m ms ih =>
    by_cases hm : m = ['*']
    · simp [maskSegs, hm, ih]
    · simp [maskSegs, hm, ih]

theorem maskSegs_take (ms : List (List Char)) :
    ∀ (k : ℕ) (hk : k < ms.length),
      maskSegs ms (ms.take k) =
        if ms.get ⟨k, hk⟩ = ['*'] then some (ms.take k) else none := by
  induction ms with
  | nil => intro k hk; simp at hk
  | cons m ms ih =>
    intro k hk
    cases k with
    | zero =>
      simp only [List.take_zero, maskSegs, List.get]
    | succ j =>
      have hj : j < ms.length := by simpa using hk
      by_cases hm : m = ['*']
      · simp only [List.take_succ_cons, maskSegs, if_pos hm, ih j hj, List.get]
        by_cases hg : ms.get ⟨j, hj⟩ = ['*'] <;> simp [hg, hm]
      · simp only [List.take_succ_cons, maskSegs, if_neg hm, if_pos rfl, ih j hj, List.get]
        by_cases hg : ms.get ⟨j, hj⟩ = ['*'] <;> simp [hg]

end Peasy.Web

namespace Peasy.Web

theorem maskPathname_def (mask path : List Char) :
    maskPathname mask path =
      if (normalizePath path).length > (normalizePath mask).length then path
      else
        match maskSegs (normalizePath mask) (normalizePath path) with
        | none => path
        | some segs => jsJoin '/' segs := rfl

theorem maskPathname_cases (p u : List Char) :
    maskPathname p u = u ∨
      ((normalizePath u).length ≤ (normalizePath p).length ∧
       maskPathname p u = jsJoin '/' ((normalizePath p).take (normalizePath u).length)) := by
  rw [maskPathname_def]
  by_cases hg : (normalizePath u).length > (normalizePath p).length
  · left; simp [hg]
  · cases h : maskSegs (normalizePath p) (normalizePath u) with
    | none => left; simp [hg, h]
    | some segs =>
      right
      exact ⟨by omega, by simp [hg, h, maskSegs_eq_take _ _ _ h]⟩

theorem maskPathname_fixAux (p m : List Char) (n : ℕ)
    (hn : n ≤ (normalizePath p).length)
    (hnorm : normalizePath m = (normalizePath p).take n)
    (hjoin : jsJoin '/' ((normalizePath p).take n) = m) :
    maskPathname p m = m := by
  rw [maskPathname_def, hnorm]
  have hlen : ((normalizePath p).take n).length = n := by
    rw [List.length_take]; omega
  rw [hlen, if_neg (by omega)]
  rcases lt_or_eq_of_le hn with hlt | heq
  · rw [maskSegs_take (normalizePath p) n hlt]
    by_cases hw : (normalizePath p).get ⟨n, hlt⟩ = ['*']
    · simp only [if_pos hw]
      exact hjoin
    · simp only [if_neg hw]
  · subst heq
    rw [List.take_length] at hjoin ⊢
    simp only [maskSegs_self]
    exact hjoin

theorem maskPathname_fixAuxB (p m : List Char) (n : ℕ)
    (hlt : n < (normalizePath p).length)
    (hnorm : normalizePath m = (normalizePath p).take n)
    (hnw : (normalizePath p).get ⟨n, hlt⟩ ≠ ['*']) :
    maskPathname p m = m := by
  rw [maskPathname_def, hnorm]
  have hlen : ((normalizePath p).take n).length = n := by
    rw [List.length_take]; omega
  rw [hlen, if_neg (by omega)]
  rw [maskSegs_take (normalizePath p) n hlt]
  simp only [if_neg hnw]

theorem getLastQ_append_right (y z : List Char) (hz : z ≠ []) :
    (y ++ z).getLast? = z.getLast? := by
  induction y with
  | nil => rfl
  | cons c cs ih =>
    cases hcz : cs ++ z with
    | nil => exact absurd (List.append_eq_nil.mp hcz).2 hz
    | cons d ds =>
      rw [List.cons_append, hcz, List.getLast?_cons_cons, ← hcz, ih]

theorem normalizePath_jsJoin_ne (T : List (List Char)) (X : List (List Char))
    (L : List Char) (hT : T = X ++ [L]) (hLne : L ≠ [])
    (hsep : ∀ s ∈ T, '/' ∉ s) : normalizePath (jsJoin '/' T) = T := by
  have hTne : T ≠ [] := by rw [hT]; simp
  have hlast : (jsJoin '/' T).getLast? = L.getLast? := by
    rw [hT]
    cases X with
    | nil => simp [jsJoin]
    | cons a as =>
      rw [jsJoin_concat _ _ _ (by simp), getLastQ_append_right _ _ (by simp)]
      cases L with
      | nil => exact absurd rfl hLne
      | cons c cs => rw [List.getLast?_cons_cons]
  have hend : jsEndsWith (jsJoin '/' T) '/' = false := by
    unfold jsEndsWith
    rw [hlast]
    cases hq : L.getLast? with
    | none => simp
    | some c =>
      have hc : c ∈ L := getLastQ_mem L c hq
      have : '/' ∉ L := hsep L (by rw [hT]; exact List.mem_append_right X (by simp))
      have hcne : ¬ c = '/' := fun e => this (e ▸ hc)
      simp [hcne]
  unfold normalizePath
  rw [hend]
  simp only [Bool.false_eq_true, if_false]
  exact jsSplit_jsJoin '/' T hTne hsep

theorem maskPathname_fix (p u : List Char) :
    maskPathname p (maskPathname p u) = maskPathname p u := by
  rcases maskPathname_cases p u with h | ⟨hle, h⟩
  · rw [h]; exact h
  · have hpos : 0 < (normalizePath u).length :=
      List.length_pos.mpr (normalizePath_ne_nil u)
    obtain ⟨k, hn⟩ : ∃ k, (normalizePath u).length = k + 1 :=
      ⟨(normalizePath u).length - 1, by omega⟩
    rw [hn] at h hle
    have hk : k < (normalizePath p).length := by omega
    have hT : (normalizePath p).take (k+1) =
        (normalizePath p).take k ++ [(normalizePath p).get ⟨k, hk⟩] := by
      rw [List.take_succ]
      simp [List.getElem?_eq_getElem hk, List.get_eq_getElem]
    have hsepT : ∀ s ∈ (normalizePath p).take (k+1), '/' ∉ s := fun s hs =>
      normalizePath_sepFree p s (List.take_subset _ _ hs)
    rw [h]
    by_cases hLnil : (normalizePath p).get ⟨k, hk⟩ = []
    · cases k with
      | zero =>
        have hT0 : (normalizePath p).take 1 = [[]] := by
          rw [hT, hLnil]
          simp
        apply maskPathname_fixAux p _ 1 (by omega) _ rfl
        rw [hT0]
        rfl
      | succ j =>
        have hXne : (normalizePath p).take (j+1) ≠ [] := by
          have : ((normalizePath p).take (j+1)).length = j+1 := by
            rw [List.length_take]; omega
          intro e
          rw [e] at this
          simp at this
        have hjoin2 : jsJoin '/' ((normalizePath p).take (j+1+1)) =
            jsJoin '/' ((normalizePath p).take (j+1)) ++ ['/'] := by
          rw [hT, hLnil, jsJoin_concat _ _ _ hXne]
        apply maskPathname_fixAuxB p _ (j+1) hk _
          (by simp only [List.get_eq_getElem] at hLnil; simp [hLnil])
        rw [hjoin2]
        unfold normalizePath
        rw [jsEndsWith_concat]
        simp only [if_true]
        rw [List.dropLast_concat]
        exact jsSplit_jsJoin '/' _ hXne
          (fun s hs => normalizePath_sepFree p s (List.take_subset _ _ hs))
    · apply maskPathname_fixAux p _ (k+1) hle _ rfl
      exact normalizePath_jsJoin_ne _ _ _ hT hLnil hsepT

theorem maskLoop_single (p path : List Char) :
    maskLoop [p] path = maskPathname p path := by
  by_cases h : maskPathname p path = path
  · simp [maskLoop, h]
  · simp [maskLoop, h]

end Peasy.Web

namespace Peasy.Web

theorem processUrl_idem (cfg : Config) (h : cfg.maskPatterns.length ≤ 1) (u : Url) :
    processUrl cfg (processUrl cfg u) = processUrl cfg u := by
  rcases hp : cfg.maskPatterns with _ | ⟨p, rest⟩
  · by_cases hq : cfg.ignoreQueryParams <;>
      simp [processUrl, maskLoop, hp, hq]
  · cases rest with
    | nil =>
      by_cases hq : cfg.ignoreQueryParams <;>
        simp [processUrl, hp, hq, maskLoop_single, maskPathname_fix]
    | cons q qs =>
      rw [hp] at h
      simp at h

theorem dispatch_init (ctx : Ctx) (it : QItem) (s : StM) (h : s.initialized = true) :
    dispatchItem ctx it s = { s with sent := s.sent ++ [sentOf s.config ctx it] } := by
  cases it <;> simp [dispatchItem, trackOp, setProfileOp, sentOf, h]

theorem drain_spec (ctx : Ctx) (items : List QItem) :
    ∀ s : StM, s.initialized = true →
      drainQueue ctx items s =
        { s with sent := s.sent ++ items.map (sentOf s.config ctx) } := by
  induction items with
  | nil => intro s h; simp [drainQueue]
  | cons it rest ih =>
    intro s h
    have h1 : drainQueue ctx (it :: rest) s = drainQueue ctx rest (dispatchItem ctx it s) := by
      simp [drainQueue]
    rw [h1, dispatch_init ctx it s h, ih _ (by simp [h])]
    simp

theorem pageOp_noop (ctx : Ctx) (s : StM) (h : s.lastPage = some ctx.url.pathname) :
    pageOp ctx s = s := by
  simp [pageOp, h]

theorem pageOp_init_new (ctx : Ctx) (s : StM) (hinit : s.initialized = true)
    (h : ¬ s.lastPage = some ctx.url.pathname) :
    pageOp ctx s =
      { s with lastPage := some ctx.url.pathname
               sent := s.sent ++ [Sent.event (mkPayload s.config ctx pageViewName (pageMd ctx))] } := by
  simp [pageOp, h, trackOp, hinit]

theorem dispatch_initialized_eq (ctx : Ctx) (it : QItem) (s : StM) :
    (dispatchItem ctx it s).initialized = s.initialized := by
  cases it <;> simp only [dispatchItem, trackOp, setProfileOp] <;> split <;> rfl

theorem drain_initialized_eq (ctx : Ctx) (items : List QItem) :
    ∀ s : StM, (drainQueue ctx items s).initialized = s.initialized := by
  induction items with
  | nil => intro s; simp [drainQueue]
  | cons it rest ih =>
    intro s
    have h1 : drainQueue ctx (it :: rest) s = drainQueue ctx rest (dispatchItem ctx it s) := by
      simp [drainQueue]
    rw [h1, ih, dispatch_initialized_eq]

theorem pageOp_initialized_eq (ctx : Ctx) (s : StM) :
    (pageOp ctx s).initialized = s.initialized := by
  simp only [pageOp, trackOp]
  split
  · rfl
  · split <;> rfl

theorem initOp_initialized (params : InitParams) (ctx : Ctx) (s : StM) :
    (initOp params ctx s).initialized = true := by
  by_cases h : s.initialized
  · simp [initOp, h]
  · simp only [initOp, h, if_false, Bool.false_eq_true]
    rw [drain_initialized_eq]
    split
    · rw [pageOp_initialized_eq]
    · rfl

theorem initOp_idem (params : InitParams) (ctx : Ctx) (s : StM) :
    initOp params ctx (initOp params ctx s) = initOp params ctx s := by
  have h2 : (initOp params ctx s).initialized = true := initOp_initialized params ctx s
  generalize he : initOp params ctx s = t at h2 ⊢
  simp [initOp, h2]

theorem initOp_sent (params : InitParams) (ctx : Ctx) (s : StM)
    (h : s.initialized = false) :
    (initOp params ctx s).sent =
      s.sent ++ initAutoSends (mkConfig params s.config) ctx s.lastPage
        ++ s.queue.map (sentOf (mkConfig params s.config) ctx) := by
  simp only [initOp, h, if_false, Bool.false_eq_true]
  by_cases ha : (mkConfig params s.config).autoPageView
  · rw [if_pos ha]
    by_cases hl : s.lastPage = some ctx.url.pathname
    · rw [pageOp_noop ctx _ (by simpa using hl)]
      rw [drain_spec ctx s.queue _ (by simp)]
      simp [initAutoSends, ha, hl]
    · rw [pageOp_init_new ctx _ (by simp) (by simpa using hl)]
      rw [drain_spec ctx s.queue _ (by simp)]
      simp [initAutoSends, ha, hl]
  · rw [if_neg ha]
    rw [drain_spec ctx s.queue _ (by simp)]
    simp [initAutoSends, ha]

theorem applyPre_spec (ctx : Ctx) (calls : List PreCall) :
    ∀ s : StM, s.initialized = false →
      (applyPre ctx calls s).initialized = false ∧
      (applyPre ctx calls s).sent = s.sent ∧
      (applyPre ctx calls s).config = s.config := by
  induction calls with
  | nil => intro s h; simp [applyPre, h]
  | cons c rest ih =>
    intro s h
    have hstep : (stepPre ctx s c).initialized = false ∧
        (stepPre ctx s c).sent = s.sent ∧ (stepPre ctx s c).config = s.config := by
      cases c with
      | track n md => simp [stepPre, trackOp, h]
      | setProfile id pf => simp [stepPre, setProfileOp, h]
      | page =>
        by_cases hl : s.lastPage = some ctx.url.pathname
        · simp [stepPre, pageOp, hl, h]
        · simp [stepPre, pageOp, hl, trackOp, h]
    have h1 : applyPre ctx (c :: rest) s = applyPre ctx rest (stepPre ctx s c) := by
      simp [applyPre]
    obtain ⟨hi, hs, hc⟩ := hstep
    obtain ⟨a, b, d⟩ := ih (stepPre ctx s c) hi
    exact ⟨by rw [h1]; exact a, by rw [h1, b, hs], by rw [h1, d, hc]⟩

theorem stepCall_queue (ctx : Ctx) (c : Call) (s : StM) (q : List QItem)
    (h : s.initialized = true) :
    stepCall ctx { s with queue := q } c = { stepCall ctx s c with queue := q } := by
  cases c with
  | track n md => simp [stepCall, trackOp, h]
  | setProfile id pf => simp [stepCall, setProfileOp, h]
  | page =>
    by_cases hl : s.lastPage = some ctx.url.pathname
    · simp [stepCall, pageOp, hl]
    · simp [stepCall, pageOp, hl, trackOp, h]
  | doInit params => simp [stepCall, initOp, h]

theorem stepCall_init_true (ctx : Ctx) (c : Call) (s : StM)
    (h : s.initialized = true) : (stepCall ctx s c).initialized = true := by
  cases c with
  | track n md => simp [stepCall, trackOp, h]
  | setProfile id pf => simp [stepCall, setProfileOp, h]
  | page =>
    by_cases hl : s.lastPage = some ctx.url.pathname
    · simp [stepCall, pageOp, hl, h]
    · simp [stepCall, pageOp, hl, trackOp, h]
  | doInit params => exact initOp_initialized params ctx s

theorem applyCalls_queue (ctx : Ctx) (calls : List Call) :
    ∀ (s : StM) (q : List QItem), s.initialized = true →
      applyCalls ctx calls { s with queue := q } =
        { applyCalls ctx calls s with queue := q } := by
  induction calls with
  | nil => intro s q h; simp [applyCalls]
  | cons c rest ih =>
    intro s q h
    have h1 : applyCalls ctx (c :: rest) { s with queue := q } =
        applyCalls ctx rest (stepCall ctx { s with queue := q } c) := by
      simp [applyCalls]
    have h2 : applyCalls ctx (c :: rest) s = applyCalls ctx rest (stepCall ctx s c) := by
      simp [applyCalls]
    rw [h1, h2, stepCall_queue ctx c s q h,
      ih (stepCall ctx s c) q (stepCall_init_true ctx c s h)]

end Peasy.Web

namespace Peasy.Web

theorem segMatchSpec_maskSegs :
    ∀ ms ps : List (List Char), segMatchSpec ms ps = true →
      maskSegs ms ps = some ms ∧ ms.length = ps.length := by
  intro ms
  induction ms with
  | nil =>
    intro ps h
    cases ps with
    | nil => simp [maskSegs]
    | cons p ps => simp [segMatchSpec] at h
  | cons m ms ih =>
    intro ps h
    cases ps with
    | nil => simp [segMatchSpec] at h
    | cons p ps =>
      simp only [segMatchSpec, Bool.and_eq_true] at h
      obtain ⟨h1, h2⟩ := h
      obtain ⟨ha, hb⟩ := ih ps h2
      by_cases hm : m = ['*']
      · exact ⟨by simp [maskSegs, hm, ha], by simp [hb]⟩
      · rw [if_neg hm] at h1
        by_cases hp : m = p
        · subst hp
          exact ⟨by simp [maskSegs, hm, ha], by simp [hb]⟩
        · simp [hp] at h1

theorem maskLoop_first_change (path : List Char) :
    ∀ (pre : List (List Char)) (post : List (List Char)) (p : List Char),
      (∀ q ∈ pre, maskPathname q path = path) →
      maskPathname p path ≠ path →
      maskLoop (pre ++ p :: post) path = maskPathname p path := by
  intro pre
  induction pre with
  | nil => intro post p _ hp; simp [maskLoop, hp]
  | cons q qs ih =>
    intro post p hq hp
    have hq1 : maskPathname q path = path := hq q (by simp)
    have h1 : maskLoop ((q :: qs) ++ p :: post) path = maskLoop (qs ++ p :: post) path := by
      simp [maskLoop, hq1]
    rw [h1, ih post p (fun r hr => hq r (List.mem_cons_of_mem q hr)) hp]

theorem endsWithFix (base : List Char) :
    jsEndsWith (if jsEndsWith base '/' then base else base ++ ['/']) '/' = true := by
  by_cases h : jsEndsWith base '/' = true
  · simp [h]
  · have hb : jsEndsWith base '/' = false := by simpa using h
    simp [hb, jsEndsWith_concat]

theorem normIngest_endsWith (o : Option (List Char)) :
    jsEndsWith (normIngest o) '/' = true := by
  cases o with
  | none => exact endsWithFix defaultIngest
  | some s => exact endsWithFix (if s = [] then defaultIngest else s)

end Peasy.Web

namespace Peasy.Legacy

theorem firstMaskMatch_first (path : List Char) :
    ∀ (pre : List (List Char)) (post : List (List Char)) (p : List Char),
      (∀ q ∈ pre, regexTest q path = false) →
      regexTest p path = true →
      firstMaskMatch (pre ++ p :: post) path = some p := by
  intro pre
  induction pre with
  | nil => intro post p _ hp; simp [firstMaskMatch, hp]
  | cons q qs ih =>
    intro post p hq hp
    have hq1 : regexTest q path = false := hq q (by simp)
    have h1 : firstMaskMatch ((q :: qs) ++ p :: post) path =
        firstMaskMatch (qs ++ p :: post) path := by
      simp [firstMaskMatch, hq1]
    rw [h1, ih post p (fun r hr => hq r (List.mem_cons_of_mem q hr)) hp]

end Peasy.Legacy

namespace Peasy

theorem leadingMatch_append (n rest : List Char) :
    leadingMatch (n ++ rest) n = true := by
  induction n with
  | nil => cases rest <;> simp [leadingMatch]
  | cons c cs ih => simp [leadingMatch, ih]

theorem jsIncludes_of_leading (hay needle : List Char)
    (h : leadingMatch hay needle = true) : jsIncludes hay needle = true := by
  cases hay with
  | nil => simpa [jsIncludes] using h
  | cons c cs => simp [jsIncludes, h]

theorem jsIncludes_cons (c : Char) (t needle : List Char)
    (h : jsIncludes t needle = true) : jsIncludes (c :: t) needle = true := by
  simp [jsIncludes, h]

theorem jsIncludes_append (a n c : List Char) :
    jsIncludes (a ++ (n ++ c)) n = true := by
  induction a with
  | nil => exact jsIncludes_of_leading _ _ (leadingMatch_append n c)
  | cons x xs ih => exact jsIncludes_cons x _ _ ih

end Peasy

namespace Peasy

/-- C1: a mask pattern whose normalized segments match the candidate
pathname segment-for-segment (literals by equality, `*` by any single
non-empty segment) makes `_maskPathname` return the pattern's masked form
(wildcards kept as `*`), and a pathname with more segments than the
pattern is returned unmasked; concretely, the sanitizer maps
`/user/123` under `["/user/*"]` to `/user/*`, and leaves
`/user/123/edit` unmasked. -/
theorem c1_mask_segment_semantics :
    (∀ mask path : List Char,
        Web.segMatchSpec (Web.normalizePath mask) (Web.normalizePath path) = true →
        Web.maskPathname mask path = jsJoin '/' (Web.normalizePath mask))
    ∧ (∀ mask path : List Char,
        (Web.normalizePath path).length > (Web.normalizePath mask).length →
        Web.maskPathname mask path = path)
    ∧ (∀ origin search : List Char,
        Web.processUrl Web.c1cfg
            { origin := origin, pathname := "/user/123".data, search := search }
          = { origin := origin, pathname := "/user/*".data, search := search })
    ∧ (∀ origin search : List Char,
        Web.processUrl Web.c1cfg
            { origin := origin, pathname := "/user/123/edit".data, search := search }
          = { origin := origin, pathname := "/user/123/edit".data, search := search }) := by
  refine ⟨?_, ?_, ?_, ?_⟩
  · intro mask path h
    obtain ⟨ha, hb⟩ := Web.segMatchSpec_maskSegs _ _ h
    rw [Web.maskPathname_def, if_neg (by omega)]
    simp [ha]
  · intro mask path h
    rw [Web.maskPathname_def, if_pos h]
  · intro origin search
    have hm : Web.maskLoop ["/user/*".data] "/user/123".data = "/user/*".data := by
      decide
    simp [Web.processUrl, Web.c1cfg, Web.cfg0, hm]
  · intro origin search
    have hm : Web.maskLoop ["/user/*".data] "/user/123/edit".data = "/user/123/edit".data := by
      decide
    simp [Web.processUrl, Web.c1cfg, Web.cfg0, hm]

/-- Witness for C1 at concrete inputs. -/
theorem c1_mask_segment_semantics_witness :
    (Web.segMatchSpec (Web.normalizePath "/user/*".data)
        (Web.normalizePath "/user/999".data) = true
      ∧ Web.maskPathname "/user/*".data "/user/999".data
          = jsJoin '/' (Web.normalizePath "/user/*".data))
    ∧ ((Web.normalizePath "/user/1/2".data).length
          > (Web.normalizePath "/user/*".data).length
      ∧ Web.maskPathname "/user/*".data "/user/1/2".data = "/user/1/2".data) :=
  ⟨⟨by decide, c1_mask_segment_semantics.1 "/user/*".data "/user/999".data (by decide)⟩,
   ⟨by decide, c1_mask_segment_semantics.2.1 "/user/*".data "/user/1/2".data (by decide)⟩⟩

/-- C2 counterexample: when every synchronous step succeeds and the fetch
promise rejects (network failure), the transport neither catches nor logs
the error — the rejection is unhandled — contradicting the claim that any
asynchronous error is caught inside the transport and logged. -/
theorem c2_async_failure_not_logged :
    Web.c2envNetFail.netOk = false
    ∧ (Web.sendRun true Web.c2envNetFail).loggedError = false
    ∧ (Web.sendRun true Web.c2envNetFail).unhandledRejection = true := by
  refine ⟨rfl, by decide, by decide⟩

/-- C2 (amended): no exception ever propagates out of
`track()`/`setProfile()`/`page()` — the call returns normally for every
failure environment; every synchronous error (malformed URL, storage
read denial, serialization failure, a throwing fetch call) is caught and
logged by `_send`'s catch; but a purely asynchronous network failure is
not logged (it remains an unhandled promise rejection). -/
theorem c2_failure_isolation :
    (∀ (sl : Bool) (env : Web.SendEnv), ∃ eff, Web.trackSendExc sl env = Except.ok eff)
    ∧ (∀ (sl : Bool) (env : Web.SendEnv),
        (∃ e, Web.sendTry sl env = Except.error e) →
        (Web.sendRun sl env).loggedError = true)
    ∧ (∀ (sl : Bool) (env : Web.SendEnv),
        env.urlJoinOk = true → env.storageGetOk = true → env.serializeOk = true →
        env.fetchCallOk = true → env.netOk = false →
        (Web.sendRun sl env).loggedError = false ∧
        (Web.sendRun sl env).unhandledRejection = true) := by
  refine ⟨?_, ?_, ?_⟩
  · intro sl env
    cases h : Web.sendTry sl env with
    | ok eff => exact ⟨eff, by simp [Web.trackSendExc, h]⟩
    | error e =>
      exact ⟨{ requestIssued := false, loggedError := true, unhandledRejection := false,
               storedAfter := env.storedToken }, by simp [Web.trackSendExc, h]⟩
  · intro sl env he
    obtain ⟨e, he⟩ := he
    simp [Web.sendRun, he]
  · intro sl env h1 h2 h3 h4 h5
    simp [Web.sendRun, Web.sendTry, h1, h2, h3, h4, h5]

/-- Witness for C2 at the concrete network-failure environment. -/
theorem c2_failure_isolation_witness :
    (Web.c2envNetFail.urlJoinOk = true ∧ Web.c2envNetFail.netOk = false)
    ∧ ((Web.sendRun true Web.c2envNetFail).loggedError = false
      ∧ (Web.sendRun true Web.c2envNetFail).unhandledRejection = true) :=
  ⟨⟨rfl, rfl⟩, c2_failure_isolation.2.2 true Web.c2envNetFail rfl rfl rfl rfl rfl⟩

/-- C3: before `init` no event is delivered (the `_send` trace stays
empty); `init` delivers the optional auto page view and then dispatches
every buffered queue entry exactly once, in original FIFO order, through
the now-initialized pipeline; a second `init` is a no-op (the queue is
never replayed), and once initialized the sends of any further call
sequence do not depend on the queue contents at all. -/
theorem c3_preinit_buffering (calls : List Web.PreCall) (params : Web.InitParams)
    (ctx : Web.Ctx) :
    (Web.applyPre ctx calls Web.st0).sent = []
    ∧ (Web.initOp params ctx (Web.applyPre ctx calls Web.st0)).sent =
        Web.initAutoSends (Web.mkConfig params (Web.applyPre ctx calls Web.st0).config) ctx
            (Web.applyPre ctx calls Web.st0).lastPage
          ++ (Web.applyPre ctx calls Web.st0).queue.map
              (Web.sentOf (Web.mkConfig params (Web.applyPre ctx calls Web.st0).config) ctx)
    ∧ Web.initOp params ctx (Web.initOp params ctx (Web.applyPre ctx calls Web.st0)) =
        Web.initOp params ctx (Web.applyPre ctx calls Web.st0)
    ∧ ∀ (post : List Web.Call) (s : Web.StM) (q : List Web.QItem),
        s.initialized = true →
        (Web.applyCalls ctx post { s with queue := q }).sent =
          (Web.applyCalls ctx post s).sent := by
  obtain ⟨hi, hs, hc⟩ := Web.applyPre_spec ctx calls Web.st0 rfl
  refine ⟨by rw [hs]; rfl, ?_, Web.initOp_idem params ctx _, ?_⟩
  · rw [Web.initOp_sent params ctx _ hi, hs]
    simp [Web.st0]
  · intro post s q h
    rw [Web.applyCalls_queue ctx post s q h]

/-- Witness for C3's queue-independence conjunct at concrete inputs. -/
theorem c3_preinit_buffering_witness :
    Web.exStInit.initialized = true
    ∧ (Web.applyCalls Web.exCtx [Web.Call.track "x".data none]
          { Web.exStInit with queue := [Web.QItem.track "q".data none] }).sent
        = (Web.applyCalls Web.exCtx [Web.Call.track "x".data none] Web.exStInit).sent :=
  ⟨rfl,
   (c3_preinit_buffering []
      { websiteId := "w".data, ingestUrl := none, maskPatterns := none,
        autoPageView := none, ignoreQueryParams := none }
      Web.exCtx).2.2.2
     [Web.Call.track "x".data none] Web.exStInit [Web.QItem.track "q".data none] rfl⟩

end Peasy

namespace Peasy

/-- C4 counterexample: with patterns `["/a/b", "/a/*"]` and path `/a/b`,
the first pattern fully matches, yet the current variant's sanitizer does
not stop there: because the matching pattern's masked form equals the
pathname, the loop falls through and applies the *second* pattern,
yielding `/a/*` instead of the first pattern's masked form `/a/b`. -/
theorem c4_matching_pattern_skipped :
    Web.segMatchSpec (Web.normalizePath "/a/b".data) (Web.normalizePath "/a/b".data) = true
    ∧ Web.maskLoop ["/a/b".data, "/a/*".data] "/a/b".data = "/a/*".data
    ∧ jsJoin '/' (Web.normalizePath "/a/b".data) ≠ "/a/*".data := by
  refine ⟨by decide, by decide, by decide⟩

/-- C4 (amended): in the current variant the sanitizer applies the first
pattern whose masked form *differs* from the current pathname and stops
there (a matching pattern whose masked form equals the pathname falls
through); in the legacy regex variant the first matching pattern
genuinely wins.  The claim's concrete example holds in both: patterns
`["/a/*", "/a/b"]` on `/a/b` give the first pattern's masked form
`/a/*`. -/
theorem c4_first_change_wins :
    (∀ (pre post : List (List Char)) (p path : List Char),
        (∀ q ∈ pre, Web.maskPathname q path = path) →
        Web.maskPathname p path ≠ path →
        Web.maskLoop (pre ++ p :: post) path = Web.maskPathname p path)
    ∧ (∀ (pre post : List (List Char)) (p path : List Char),
        (∀ q ∈ pre, Legacy.regexTest q path = false) →
        Legacy.regexTest p path = true →
        Legacy.firstMaskMatch (pre ++ p :: post) path = some p)
    ∧ Web.maskLoop ["/a/*".data, "/a/b".data] "/a/b".data = "/a/*".data
    ∧ Legacy.firstMaskMatch ["/a/*".data, "/a/b".data] "/a/b".data = some "/a/*".data := by
  refine ⟨?_, ?_, by decide, by decide⟩
  · intro pre post p path h1 h2
    exact Web.maskLoop_first_change path pre post p h1 h2
  · intro pre post p path h1 h2
    exact Legacy.firstMaskMatch_first path pre post p h1 h2

/-- Witness for C4's first-change-wins conjunct at the claim's example. -/
theorem c4_first_change_wins_witness :
    Web.maskPathname "/a/*".data "/a/b".data ≠ "/a/b".data
    ∧ Web.maskLoop ([] ++ "/a/*".data :: ["/a/b".data]) "/a/b".data
        = Web.maskPathname "/a/*".data "/a/b".data :=
  ⟨by decide,
   c4_first_change_wins.1 [] ["/a/b".data] "/a/*".data "/a/b".data
     (by simp) (by decide)⟩

/-- C5: once initialized, a URL whose raw pathname matches a configured
skip pattern makes the legacy sanitizer return `null` and `track` abort
silently with the state unchanged — zero transport sends. -/
theorem c5_skip_short_circuit (cfg : Legacy.Config) (ctx : Legacy.Ctx)
    (s : Legacy.St) (name : List Char) (md : Option Md)
    (r : List Char) (hr : r ∈ cfg.skipPatterns)
    (hm : Legacy.regexTest r ctx.url.pathname = true)
    (hinit : s.initialized = true) :
    Legacy.processUrl cfg ctx.url = none
    ∧ Legacy.trackOp cfg ctx name md s = s := by
  have hany : cfg.skipPatterns.any (fun p => Legacy.regexTest p ctx.url.pathname) = true :=
    List.any_eq_true.mpr ⟨r, hr, hm⟩
  have hpu : Legacy.processUrl cfg ctx.url = none := by
    simp [Legacy.processUrl, hany]
  refine ⟨hpu, ?_⟩
  by_cases hd : ctx.doNotTrack
  · simp [Legacy.trackOp, hd]
  · simp [Legacy.trackOp, hd, hinit, hpu]

/-- Witness for C5 on the `/admin/*` skip pattern. -/
theorem c5_skip_short_circuit_witness :
    ("/admin/*".data ∈ Legacy.c5cfg.skipPatterns
      ∧ Legacy.regexTest "/admin/*".data Legacy.c5ctx.url.pathname = true
      ∧ Legacy.c5st.initialized = true)
    ∧ (Legacy.processUrl Legacy.c5cfg Legacy.c5ctx.url = none
      ∧ Legacy.trackOp Legacy.c5cfg Legacy.c5ctx "order".data none Legacy.c5st
          = Legacy.c5st) :=
  ⟨⟨by decide, by decide, rfl⟩,
   c5_skip_short_circuit Legacy.c5cfg Legacy.c5ctx Legacy.c5st "order".data none
     "/admin/*".data (by decide) (by decide) rfl⟩

/-- C6: in the current variant, once initialized, a `page()` call on a
pathname different from the Last-Page Marker delivers exactly one
`$page_view` event; an immediately repeated `page()` on the unchanged
pathname is a no-op, and in general `page()` is a no-op whenever the
current pathname equals the marker. -/
theorem c6_page_dedup (ctx : Web.Ctx) (s : Web.StM)
    (hinit : s.initialized = true)
    (hne : ¬ s.lastPage = some ctx.url.pathname) :
    (Web.pageOp ctx s).sent =
      s.sent ++ [Web.Sent.event (Web.mkPayload s.config ctx Web.pageViewName (Web.pageMd ctx))]
    ∧ Web.pageOp ctx (Web.pageOp ctx s) = Web.pageOp ctx s
    ∧ ∀ s2 : Web.StM, s2.lastPage = some ctx.url.pathname → Web.pageOp ctx s2 = s2 := by
  have h1 := Web.pageOp_init_new ctx s hinit hne
  refine ⟨by rw [h1], ?_, fun s2 h => Web.pageOp_noop ctx s2 h⟩
  rw [h1]
  exact Web.pageOp_noop ctx _ rfl

/-- Witness for C6 at a concrete context and state. -/
theorem c6_page_dedup_witness :
    (Web.exStInit.initialized = true
      ∧ ¬ Web.exStInit.lastPage = some Web.exCtx.url.pathname)
    ∧ Web.pageOp Web.exCtx (Web.pageOp Web.exCtx Web.exStInit)
        = Web.pageOp Web.exCtx Web.exStInit :=
  ⟨⟨rfl, by decide⟩, (c6_page_dedup Web.exCtx Web.exStInit rfl (by decide)).2.1⟩

/-- C7 counterexample: sanitization is not idempotent.  With patterns
`["/a/*", "/*/*"]` and pathname `/a/b`, the first pass masks to `/a/*`
(the loop stops at the first pattern); on the second pass the first
pattern no longer changes the pathname, so the loop reaches the second
pattern and produces `/*/*`. -/
theorem c7_not_idempotent :
    Web.processUrl Web.c7cfg (Web.processUrl Web.c7cfg Web.c7url)
      ≠ Web.processUrl Web.c7cfg Web.c7url := by
  decide

/-- C7 (amended): sanitization is idempotent for configurations with at
most one mask pattern (each individual pattern's masked form is a fixed
point of that pattern, and query stripping is idempotent); with several
patterns it can fail as the counterexample shows. -/
theorem c7_idem_single (cfg : Web.Config) (h : cfg.maskPatterns.length ≤ 1)
    (u : Url) :
    Web.processUrl cfg (Web.processUrl cfg u) = Web.processUrl cfg u :=
  Web.processUrl_idem cfg h u

/-- Witness for C7's single-pattern idempotence. -/
theorem c7_idem_single_witness :
    ({ Web.cfg0 with maskPatterns := ["/x/*".data] } : Web.Config).maskPatterns.length ≤ 1
    ∧ Web.processUrl { Web.cfg0 with maskPatterns := ["/x/*".data] }
        (Web.processUrl { Web.cfg0 with maskPatterns := ["/x/*".data] }
          { origin := "https://h.example".data, pathname := "/x/1".data, search := [] })
      = Web.processUrl { Web.cfg0 with maskPatterns := ["/x/*".data] }
          { origin := "https://h.example".data, pathname := "/x/1".data, search := [] } :=
  ⟨by decide, c7_idem_single _ (by decide) _⟩

end Peasy

namespace Peasy

/-- C8: the current variant's `init` always stores an ingest base URL
ending in `/` (supplied or defaulted); but the legacy variant
(src/unnamed/part_002:94) stores a supplied ingest URL verbatim, without
trailing-slash normalization — evaluated here at a concrete proxy URL —
which the repository's own changelog records as the bug fixed in 1.3.2
("a bug in ingestUrl and event path joining"). -/
theorem c8_ingest_normalization :
    (∀ o : Option (List Char), jsEndsWith (Web.normIngest o) '/' = true)
    ∧ Legacy.initIngestUrl (some "https://proxy.example.com/ingest".data)
        = "https://proxy.example.com/ingest".data
    ∧ jsEndsWith "https://proxy.example.com/ingest".data '/' = false := by
  refine ⟨Web.normIngest_endsWith, rfl, by decide⟩

/-- C9 counterexample: the referrer is blanked by *substring containment*
of the hostname, not by host equality — an external referrer whose URL
text merely contains the current hostname is also blanked: the referrer
`https://news.example/story-mysite.com` has host `news.example`, distinct
from the current hostname `mysite.com`, yet `_getReferrer` blanks it. -/
theorem c9_includes_not_host_eq :
    "news.example".data ≠ "mysite.com".data
    ∧ getReferrer (renderRef "https".data "news.example".data "/story-mysite.com".data)
        "mysite.com".data = [] := by
  refine ⟨by decide, by decide⟩

/-- C9 (amended): the referrer field is blanked exactly when the referrer
string contains the current hostname as a substring: any referrer whose
host component *is* the current hostname is blanked (host equality
implies containment), any referrer not containing the hostname is
preserved verbatim, and any referrer containing it is blanked. -/
theorem c9_referrer_substring :
    (∀ scheme host path : List Char, getReferrer (renderRef scheme host path) host = [])
    ∧ (∀ referrer hostname : List Char, jsIncludes referrer hostname = false →
        getReferrer referrer hostname = referrer)
    ∧ (∀ referrer hostname : List Char, jsIncludes referrer hostname = true →
        getReferrer referrer hostname = []) := by
  refine ⟨?_, ?_, ?_⟩
  · intro scheme host path
    have h2 := jsIncludes_append (scheme ++ "://".data) host path
    have h3 : jsIncludes (renderRef scheme host path) host = true := by
      simpa [renderRef, List.append_assoc] using h2
    simp [getReferrer, h3]
  · intro referrer hostname h
    simp [getReferrer, h]
  · intro referrer hostname h
    simp [getReferrer, h]

/-- Witness for C9's preservation conjunct at a concrete external
referrer. -/
theorem c9_referrer_substring_witness :
    jsIncludes "https://other.org/x".data "mysite.com".data = false
    ∧ getReferrer "https://other.org/x".data "mysite.com".data
        = "https://other.org/x".data :=
  ⟨by decide, c9_referrer_substring.2.1 "https://other.org/x".data "mysite.com".data (by decide)⟩

/-- C10: in the legacy variant, a `page()` call on a new pathname updates
the Last-Page Marker even when the subsequent `track` is suppressed (the
do-not-track flag is set, or a skip pattern makes the sanitizer return
`null`): no event is delivered, yet a later `page()` on the same path is
a no-op. -/
theorem c10_marker_update_suppressed (cfg : Legacy.Config) (ctx : Legacy.Ctx)
    (s : Legacy.St) (hinit : s.initialized = true)
    (hne : ¬ s.lastPage = some ctx.url.pathname)
    (hsupp : ctx.doNotTrack = true ∨
      cfg.skipPatterns.any (fun p => Legacy.regexTest p ctx.url.pathname) = true) :
    (Legacy.pageOp cfg ctx s).lastPage = some ctx.url.pathname
    ∧ (Legacy.pageOp cfg ctx s).sent = s.sent
    ∧ Legacy.pageOp cfg ctx (Legacy.pageOp cfg ctx s) = Legacy.pageOp cfg ctx s := by
  have hpage : Legacy.pageOp cfg ctx s =
      Legacy.trackOp cfg ctx Legacy.pageViewName (Legacy.pageMd ctx)
        { s with lastPage := some ctx.url.pathname } := by
    simp [Legacy.pageOp, hne]
  have htrack : Legacy.trackOp cfg ctx Legacy.pageViewName (Legacy.pageMd ctx)
      { s with lastPage := some ctx.url.pathname }
        = { s with lastPage := some ctx.url.pathname } := by
    rcases hsupp with hd | hskip
    · simp [Legacy.trackOp, hd]
    · have hnull : Legacy.processUrl cfg ctx.url = none := by
        simp [Legacy.processUrl, hskip]
      by_cases hd : ctx.doNotTrack
      · simp [Legacy.trackOp, hd]
      · simp [Legacy.trackOp, hd, hinit, hnull]
  rw [hpage, htrack]
  refine ⟨rfl, rfl, ?_⟩
  simp [Legacy.pageOp]

/-- Witness for C10 on the `/admin/*` skip pattern. -/
theorem c10_marker_update_suppressed_witness :
    (Legacy.c5st.initialized = true
      ∧ ¬ Legacy.c5st.lastPage = some Legacy.c5ctx.url.pathname
      ∧ Legacy.c5cfg.skipPatterns.any
          (fun p => Legacy.regexTest p Legacy.c5ctx.url.pathname) = true)
    ∧ ((Legacy.pageOp Legacy.c5cfg Legacy.c5ctx Legacy.c5st).lastPage
          = some Legacy.c5ctx.url.pathname
      ∧ (Legacy.pageOp Legacy.c5cfg Legacy.c5ctx Legacy.c5st).sent = Legacy.c5st.sent
      ∧ Legacy.pageOp Legacy.c5cfg Legacy.c5ctx
            (Legacy.pageOp Legacy.c5cfg Legacy.c5ctx Legacy.c5st)
          = Legacy.pageOp Legacy.c5cfg Legacy.c5ctx Legacy.c5st) :=
  ⟨⟨rfl, by decide, by decide⟩,
   c10_marker_update_suppressed Legacy.c5cfg Legacy.c5ctx Legacy.c5st rfl
     (by decide) (Or.inr (by decide))⟩

end Peasy
